import Mathlib

/-!
Verification development for the price-tracker scraping engine
(services/price_scraper.py).

Strings are modelled as `List Char`.  Python floats are modelled as
rationals: every numeric literal the scraper accepts is a decimal
numeral with at most two fractional digits, and all comparisons the
code performs on them (the sanity window, the minimum-price threshold,
truthiness) agree between the exact rational value and the IEEE double
in that range.  Rationals are always built with `mkRat` so that proofs
can evaluate them.

The regular expressions of the source are embedded as direct scanning
functions.  The three patterns involved,
  [$R]\s*(\d+(?:[,\s]\d\x7b3\x7d)*(?:\.\d\x7b2\x7d)?)
  (\d+(?:[,\s]\d\x7b3\x7d)*(?:\.\d\x7b2\x7d)?)\s*[$R]
  \d+(?:\.\d\x7b2\x7d)?
have the property that maximal-munch scanning coincides with Python's
backtracking search: the character classes of consecutive pieces are
disjoint (a digit is never a separator, a dot, whitespace or a currency
symbol), so shrinking a greedy repetition never lets the continuation
succeed.  The only genuine backtracking point, the optional cents group
followed by `\s*[$R]` in the second pattern, is embedded explicitly with
both branches.  Functions that consume a variable amount of input per
step take an explicit fuel argument, always called with the input
length, which suffices because every step consumes at least one
character.
-/

namespace PriceTracker

def toL (s : String) : List Char := s.data

/-- Model of the regex class `\d` (ASCII digits, as produced by the pages). -/
def isDigitChar (c : Char) : Bool := c.isDigit

/-- Model of the regex class `\s` (Python whitespace on ASCII text). -/
def isSpaceChar (c : Char) : Bool :=
  c = ' ' || c = '\t' || c = '\n' || c = '\r' || c = '\x0b' || c = '\x0c'

/-- Model of the regex class `[$R]` — the two recognized currency symbols. -/
def isCurrencyChar (c : Char) : Bool := c = '$' || c = 'R'

/-- Model of the regex class `[,\s]` — grouping separators. -/
def isSepChar (c : Char) : Bool := c = ',' || isSpaceChar c

/-- Model of Python `str.strip()`: drop whitespace at both ends. -/
def stripEnds (l : List Char) : List Char :=
  ((l.dropWhile isSpaceChar).reverse.dropWhile isSpaceChar).reverse

/-- Maximal digit run at the front (the greedy `\d+` / `\d*`). -/
def digitsOf (l : List Char) : List Char := l.takeWhile isDigitChar

/-- Rest of the input after the maximal digit run. -/
def afterDigits (l : List Char) : List Char := l.dropWhile isDigitChar

/-- Greedy match of `(?:[,\s]\d\x7b3\x7d)*`: consumed characters and rest. -/
def matchGroups : List Char → List Char × List Char
  | c :: d1 :: d2 :: d3 :: rest =>
    if isSepChar c && isDigitChar d1 && isDigitChar d2 && isDigitChar d3 then
      let (g, r) := matchGroups rest
      (c :: d1 :: d2 :: d3 :: g, r)
    else ([], c :: d1 :: d2 :: d3 :: rest)
  | l => ([], l)

/-- Greedy match of `(?:\.\d\x7b2\x7d)?`: consumed characters and rest. -/
def matchCents : List Char → List Char × List Char
  | c :: d1 :: d2 :: rest =>
    if c = '.' && isDigitChar d1 && isDigitChar d2 then ([c, d1, d2], rest)
    else ([], c :: d1 :: d2 :: rest)
  | l => ([], l)

/-- Search for the first currency pattern
`[$R]\s*(\d+(?:[,\s]\d\x7b3\x7d)*(?:\.\d\x7b2\x7d)?)`, returning the text of
capture group 1 of the leftmost match, as `re.search` does.  At each
position: a currency symbol, then maximal whitespace, then at least one
digit; on failure the scan resumes one character further right. -/
def searchCurrencyFirst : List Char → Option (List Char)
  | [] => none
  | c :: rest =>
    if isCurrencyChar c then
      let afterWs := rest.dropWhile isSpaceChar
      let ds := digitsOf afterWs
      if ds = [] then searchCurrencyFirst rest
      else
        let (g, r2) := matchGroups (afterDigits afterWs)
        some (ds ++ g ++ (matchCents r2).1)
    else searchCurrencyFirst rest

/-- True when the input starts with a currency symbol. -/
def headIsCurrency : List Char → Bool
  | [] => false
  | c :: _ => isCurrencyChar c

/-- Search for the second currency pattern
`(\d+(?:[,\s]\d\x7b3\x7d)*(?:\.\d\x7b2\x7d)?)\s*[$R]`, returning capture
group 1 of the leftmost match.  The optional cents group is a true
backtracking point: it is tried greedily first and dropped when the
`\s*[$R]` continuation fails with it. -/
def searchCurrencySecond : List Char → Option (List Char)
  | [] => none
  | c :: rest =>
    if isDigitChar c then
      let ds := digitsOf (c :: rest)
      let (g, r2) := matchGroups (afterDigits (c :: rest))
      let (cents, r3) := matchCents r2
      if cents ≠ [] && headIsCurrency (r3.dropWhile isSpaceChar) then
        some (ds ++ g ++ cents)
      else if headIsCurrency (r2.dropWhile isSpaceChar) then
        some (ds ++ g)
      else searchCurrencySecond rest
    else searchCurrencySecond rest

/-- Numeric value of a digit string. -/
def natOfDigits (l : List Char) : Nat :=
  l.foldl (fun acc c => 10 * acc + (c.toNat - 48)) 0

/-- Model of Python `float()` on the unsigned decimal numerals the
scraper produces: surrounding whitespace is ignored, and the accepted
forms are `digits` and `digits.digits` with at least one digit in
total; anything else raises `ValueError`, modelled as `none`. -/
def pyFloat (l : List Char) : Option ℚ :=
  let s := stripEnds l
  let ds := digitsOf s
  match afterDigits s with
  | [] => if ds = [] then none else some (mkRat (natOfDigits ds) 1)
  | c :: r2 =>
    if c = '.' then
      let fs := digitsOf r2
      if afterDigits r2 = [] && !(ds = [] && fs = []) then
        some (mkRat (natOfDigits (ds ++ fs)) (10 ^ fs.length))
      else none
    else none

/-- Model of `.replace(",", "").replace(" ", "")` on the captured group. -/
def removeCommaSpace (l : List Char) : List Char :=
  l.filter (fun c => !(c = ',' || c = ' '))

/-- The sanity window of `parse_price`: `0.01 < price < 1000000`. -/
def inSanityWindow (p : ℚ) : Bool :=
  decide (mkRat 1 100 < p) && decide (p < 1000000)

/-- One iteration of the currency-pattern loop of `parse_price`: search,
convert the group with commas and spaces removed, keep the value only
inside the sanity window; a conversion error or an out-of-window value
falls through to the next pattern. -/
def tryCurrencyPattern (searchFn : List Char → Option (List Char))
    (text : List Char) : Option ℚ :=
  match searchFn text with
  | none => none
  | some grp =>
    match pyFloat (removeCommaSpace grp) with
    | none => none
    | some price => if inSanityWindow price then some price else none

/-- The currency-anchored stage of `parse_price`: the two patterns of
`currency_patterns`, in order. -/
def currencyStage (text : List Char) : Option ℚ :=
  (tryCurrencyPattern searchCurrencyFirst text).orElse
    (fun _ => tryCurrencyPattern searchCurrencySecond text)

/-- Model of `re.findall` for `\d+(?:\.\d\x7b2\x7d)?`: the non-overlapping
matches, left to right.  Fuel decreases once per step; each step
consumes at least one character. -/
def findallNumberGo : Nat → List Char → List (List Char)
  | _, [] => []
  | 0, _ :: _ => []
  | fuel + 1, c :: rest =>
    if isDigitChar c then
      (digitsOf (c :: rest) ++ (matchCents (afterDigits (c :: rest))).1)
        :: findallNumberGo fuel (matchCents (afterDigits (c :: rest))).2
    else findallNumberGo fuel rest

def findallNumber (l : List Char) : List (List Char) := findallNumberGo l.length l

/-- The numeric fallback loop of `parse_price`: the first number of the
findall list whose value is at least 10. -/
def firstBigNumber : List (List Char) → Option ℚ
  | [] => none
  | n :: ns =>
    match pyFloat n with
    | none => firstBigNumber ns
    | some price => if 10 ≤ price then some price else firstBigNumber ns

/-- The fallback stage of `parse_price`. -/
def fallbackStage (text : List Char) : Option ℚ :=
  firstBigNumber (findallNumber text)

/-- Embedding of `parse_price`: strip the text, try the two
currency-anchored patterns, then fall back to bare numbers. -/
def parse_price (t : List Char) : Option ℚ :=
  let text := stripEnds t
  (currencyStage text).orElse (fun _ => fallbackStage text)

/-!
Document model.  `extract_price` receives an HTML string and parses it
with BeautifulSoup; the probe stages walk the parsed tree while the
whole-document regex stage scans the raw string.  A `Doc` carries both
views: `raw` is the HTML text and `dom` its parse.  Attribute values are
kept as the attribute strings of the markup; for the substring probes
this agrees with BeautifulSoup's per-token regex matching because none
of the probed patterns contains whitespace.
-/

mutual
inductive Node where
  | text : List Char → Node
  | elem : (tag : List Char) → (attrs : List (List Char × List Char)) →
      (children : NodeList) → Node
  deriving DecidableEq
inductive NodeList where
  | nil : NodeList
  | cons : Node → NodeList → NodeList
  deriving DecidableEq
end

/-- Build a child list from a plain list. -/
def nodesOf : List Node → NodeList
  | [] => .nil
  | n :: ns => .cons n (nodesOf ns)

structure Doc where
  raw : List Char
  dom : Node
  deriving DecidableEq

mutual
/-- Model of BeautifulSoup `get_text()`: the concatenated text of the
subtree. -/
def getText : Node → List Char
  | .text s => s
  | .elem _ _ cs => getTextList cs
def getTextList : NodeList → List Char
  | .nil => []
  | .cons n ns => getText n ++ getTextList ns
end

mutual
/-- Model of the tag sequence of `find_all`: every element of the tree in
document (preorder) order. -/
def allElems : Node → List Node
  | .text _ => []
  | .elem t a cs => .elem t a cs :: allElemsList cs
def allElemsList : NodeList → List Node
  | .nil => []
  | .cons n ns => allElems n ++ allElemsList ns
end

/-- First value bound to an attribute name. -/
def getAttr (attrs : List (List Char × List Char)) (name : List Char) :
    Option (List Char) :=
  match attrs with
  | [] => none
  | (k, v) :: rest => if k = name then some v else getAttr rest name

/-- An attribute filter of `find_all(attrs=...)`: a case-insensitive
substring regex, an exact string, or bare presence (`True`). -/
inductive AttrMatcher where
  | reI : List Char → AttrMatcher
  | exact : List Char → AttrMatcher
  | present : AttrMatcher
  deriving DecidableEq

/-- True when `pat` occurs contiguously inside `hay`. -/
def hasInfix (pat : List Char) : List Char → Bool
  | [] => pat.isPrefixOf []
  | c :: rest => pat.isPrefixOf (c :: rest) || hasInfix pat rest

/-- Model of `re.search` with `re.I` for a plain-text pattern: the
pattern occurs inside the value, case-insensitively. -/
def containsInsensitive (value pat : List Char) : Bool :=
  hasInfix (pat.map Char.toLower) (value.map Char.toLower)

/-- The `price_patterns` list of `extract_price`, in source order. -/
def price_patterns : List (List Char × AttrMatcher) :=
  [ (toL "class", .reI (toL "price")),
    (toL "id", .reI (toL "price")),
    (toL "itemprop", .exact (toL "price")),
    (toL "class", .reI (toL "cost")),
    (toL "class", .reI (toL "amount")),
    (toL "data-price", .present),
    (toL "class", .reI (toL "product-price")) ]

/-- One element against one attribute filter. -/
def nodeMatches (pat : List Char × AttrMatcher) (n : Node) : Bool :=
  match n with
  | .text _ => false
  | .elem _ attrs _ =>
    match getAttr attrs pat.1, pat.2 with
    | some v, .reI needle => containsInsensitive v needle
    | some v, .exact w => v = w
    | some _, .present => true
    | none, _ => false

/-- Python truthiness of an optional float: `None` and `0.0` are falsy. -/
def truthyPrice : Option ℚ → Bool
  | none => false
  | some p => decide (p ≠ 0)

/-- The element loop shared by the selector and probe stages: parse each
element's text in order, return the first truthy price. -/
def firstPriceOfElems : List Node → Option ℚ
  | [] => none
  | e :: es =>
    let price := parse_price (getText e)
    if truthyPrice price then price else firstPriceOfElems es

/-- The probe loop of `extract_price` over `price_patterns`. -/
def probeLoop (dom : Node) : List (List Char × AttrMatcher) → Option ℚ
  | [] => none
  | pat :: pats =>
    let price := firstPriceOfElems ((allElems dom).filter (nodeMatches pat))
    if truthyPrice price then price else probeLoop dom pats

/-- Model of `re.findall` for the raw-scan pattern
`[R$]\s*\d+(?:[,\s]\d\x7b3\x7d)*(?:\.\d\x7b2\x7d)?` — whole matches (the
pattern has no groups), non-overlapping, left to right. -/
def findallCurrencyGo : Nat → List Char → List (List Char)
  | _, [] => []
  | 0, _ :: _ => []
  | fuel + 1, c :: rest =>
    if isCurrencyChar c then
      let ws := rest.takeWhile isSpaceChar
      let afterWs := rest.dropWhile isSpaceChar
      let ds := digitsOf afterWs
      if ds = [] then findallCurrencyGo fuel rest
      else
        let (g, r2) := matchGroups (afterDigits afterWs)
        let (cents, r3) := matchCents r2
        (c :: ws ++ ds ++ g ++ cents) :: findallCurrencyGo fuel r3
    else findallCurrencyGo fuel rest

def findallCurrency (l : List Char) : List (List Char) :=
  findallCurrencyGo l.length l

/-- The raw-regex-stage loop of `extract_price`: first match whose parse
is truthy. -/
def firstPriceOfMatches : List (List Char) → Option ℚ
  | [] => none
  | m :: ms =>
    let price := parse_price m
    if truthyPrice price then price else firstPriceOfMatches ms

/-- Python truthiness of the optional selector string. -/
def truthySelector : Option (List Char) → Bool
  | none => false
  | some s => !(s = [])

/-- The selector stage of `extract_price`: when a truthy selector is
given, run the host's CSS selection engine (`soup.select`, modelled by
the external function `selectFn`) and take the first truthy parse. -/
def selectorStage (selectFn : Node → List Char → List Node) (dom : Node) :
    Option (List Char) → Option ℚ
  | none => none
  | some s => if s = [] then none else firstPriceOfElems (selectFn dom s)

/-- Embedding of `extract_price`: selector stage, then the attribute
probes, then the raw regex scan. -/
def extract_price (selectFn : Node → List Char → List Node) (d : Doc)
    (css_selector : Option (List Char)) : Option ℚ :=
  ((selectorStage selectFn d.dom css_selector).orElse
    (fun _ => probeLoop d.dom price_patterns)).orElse
    (fun _ => firstPriceOfMatches (findallCurrency d.raw))

/-!
Fetch layer.  The network, the HTTP library and the browser-automation
library are external; an environment records the outcome of each
library call the code makes, and exceptions are explicit: a computation
yields either `.ok v` or an uncaught Python exception `.exn e`.  A
`try/except` block is the `pyCatchAll` combinator.  `except Exception`
and `except ImportError` both catch every exception the modelled calls
can raise.
-/

/-- Result of a Python computation: a value, or an uncaught exception
(identified by its message). -/
inductive PyResult (α : Type) where
  | ok : α → PyResult α
  | exn : List Char → PyResult α
  deriving DecidableEq

/-- Model of `try: ... except Exception: ...`: every exception of the
body is replaced by the handler's result. -/
def pyCatchAll {α : Type} (body : PyResult α) (handler : List Char → PyResult α) :
    PyResult α :=
  match body with
  | .ok v => .ok v
  | .exn e => handler e

/-- Outcomes of the library calls of `fetch_price_simple`:
`requests.get` either returns a response whose body parses to `Doc` or
raises a transport error, and `raise_for_status` raises on a non-2xx
status. -/
structure HttpEnv where
  getResult : Except (List Char) Doc
  statusExn : Option (List Char)

/-- Body of the `try` block of `fetch_price_simple`. -/
def simpleBody (env : HttpEnv) (selectFn : Node → List Char → List Node)
    (css_selector : Option (List Char)) : PyResult (Option ℚ) :=
  match env.getResult with
  | .error e => .exn e
  | .ok doc =>
    match env.statusExn with
    | some e => .exn e
    | none => .ok (extract_price selectFn doc css_selector)

/-- Embedding of `fetch_price_simple`: the whole body is wrapped in
`try: ... except Exception: return None`. -/
def fetch_price_simple (env : HttpEnv) (selectFn : Node → List Char → List Node)
    (css_selector : Option (List Char)) : PyResult (Option ℚ) :=
  pyCatchAll (simpleBody env selectFn css_selector) (fun _ => .ok none)

/-- Outcomes of the library calls of `fetch_price_selenium`: the
`selenium` import, the `webdriver.Chrome` construction, `driver.get`,
the `WebDriverWait ... until` body wait, and the rendered
`driver.page_source`. -/
structure SeleniumEnv where
  importOk : Bool
  chromeResult : Except (List Char) Unit
  navResult : Except (List Char) Unit
  waitResult : Except (List Char) Unit
  pageSource : Doc

/-- True once `webdriver.Chrome(...)` has returned a live browser
session. -/
def sessionLaunched (env : SeleniumEnv) : Bool :=
  env.importOk && (match env.chromeResult with | .ok _ => true | .error _ => false)

/-- Body of the `try` block of `fetch_price_selenium`.  The second
component records whether `driver.quit()` was executed: in the source it
is called at exactly one point, after `driver.page_source` and before
`extract_price`. -/
def seleniumBody (env : SeleniumEnv) (selectFn : Node → List Char → List Node)
    (css_selector : Option (List Char)) : PyResult (Option ℚ) × Bool :=
  if env.importOk = false then (.exn (toL "ImportError"), false)
  else
    match env.chromeResult with
    | .error e => (.exn e, false)
    | .ok _ =>
      match env.navResult with
      | .error e => (.exn e, false)
      | .ok _ =>
        match env.waitResult with
        | .error e => (.exn e, false)
        | .ok _ =>
          (.ok (extract_price selectFn env.pageSource css_selector), true)

/-- Embedding of `fetch_price_selenium`: the body runs under
`except ImportError: return None` and `except Exception: return None`;
the quit flag of the body is passed through untouched, since neither
handler calls `driver.quit()`. -/
def fetch_price_selenium (env : SeleniumEnv) (selectFn : Node → List Char → List Node)
    (css_selector : Option (List Char)) : PyResult (Option ℚ) × Bool :=
  let (r, quitRan) := seleniumBody env selectFn css_selector
  (pyCatchAll r (fun _ => .ok none), quitRan)

/-- Everything one `fetch_price` call can observe from the outside
world. -/
structure FetchEnv where
  http : HttpEnv
  selenium : SeleniumEnv
  selectFn : Node → List Char → List Node

/-- Embedding of `fetch_price`: force the browser path, or try the
static fetch and fall back to the browser when the result is falsy.
Exceptions of the sub-calls are not handled here (there is no
`try` in `fetch_price`) — `pyBind` propagates them. -/
def pyBind {α β : Type} (r : PyResult α) (f : α → PyResult β) : PyResult β :=
  match r with
  | .ok v => f v
  | .exn e => .exn e

def fetch_price (env : FetchEnv) (css_selector : Option (List Char))
    (force_selenium : Bool) : PyResult (Option ℚ) :=
  if force_selenium then
    (fetch_price_selenium env.selenium env.selectFn css_selector).1
  else
    pyBind (fetch_price_simple env.http env.selectFn css_selector) fun price =>
      if truthyPrice price then .ok price
      else
        pyBind (fetch_price_selenium env.selenium env.selectFn css_selector).1 fun p2 =>
          if truthyPrice p2 then .ok p2
          else .ok none

/-!
Canonical decimal strings.  `parse_price` is claimed idempotent over its
accepted outputs via Python `str()`.  For a nonnegative float whose
shortest decimal representation has at most two fractional digits — the
shape of every in-window price the parser accepts — `str()` prints the
integer part, a dot, and the fractional digits with trailing zeros
stripped (`.0` for whole numbers).  `pyStr` models exactly that class;
outside it (denominator not dividing 100) the model is not used.
-/

/-- The decimal digit character of `n` (meaningful for `n < 10`). -/
def decDigit (n : Nat) : Char := Char.ofNat (48 + n)

/-- Decimal digit string of a natural number; fuel is the first argument
and `n + 1` always suffices. -/
def natToDigitsGo : Nat → Nat → List Char
  | 0, _ => []
  | fuel + 1, n =>
    if n < 10 then [decDigit n]
    else natToDigitsGo fuel (n / 10) ++ [decDigit (n % 10)]

def natToDigits (n : Nat) : List Char := natToDigitsGo (n + 1) n

/-- Model of Python `str()` on a nonnegative float whose value is `p`
with `p.den ∣ 100`: trailing-zero-stripped decimal form, `.0` for whole
numbers. -/
def pyStr (p : ℚ) : List Char :=
  if p.den = 1 then natToDigits p.num.toNat ++ toL ".0"
  else
    let cents : Nat := p.num.toNat * (100 / p.den)
    if p.den ∣ 10 then
      natToDigits (cents / 100) ++ ['.', decDigit (cents / 10 % 10)]
    else
      natToDigits (cents / 100) ++
        ['.', decDigit (cents / 10 % 10), decDigit (cents % 10)]

/-!
Concrete documents and environments used by the claim theorems.  Each
`Doc` pairs an HTML string with its parse tree.
-/

/-- A CSS selection engine that never matches; stands for `soup.select`
on a document without selector hits. -/
def noSelect : Node → List Char → List Node := fun _ _ => []

/-- The document of P4: an `amount`-classed fragment first in document
order, an `itemprop` fragment after it. -/
def docItempropAmount : Doc :=
  { raw := toL "<div><span class=\"amount\">R50</span><span itemprop=\"price\">R1,299.00</span></div>",
    dom := .elem (toL "div") [] (nodesOf
      [ .elem (toL "span") [(toL "class", toL "amount")]
          (nodesOf [.text (toL "R50")]),
        .elem (toL "span") [(toL "itemprop", toL "price")]
          (nodesOf [.text (toL "R1,299.00")]) ]) }

/-- A document whose only price-bearing element is identified by an `id`
containing "cost", with no currency symbol in its text. -/
def docIdCost : Doc :=
  { raw := toL "<div id=\"total-cost\">1299</div>",
    dom := .elem (toL "div") [(toL "id", toL "total-cost")]
      (nodesOf [.text (toL "1299")]) }

/-- A rendered page with no price at all. -/
def docEmpty : Doc := { raw := toL "<html></html>", dom := .elem (toL "html") [] .nil }

/-- A rendered page whose markup contains the fragment `$49.99`. -/
def docDollar : Doc :=
  { raw := toL "<p>$49.99</p>",
    dom := .elem (toL "p") [] (nodesOf [.text (toL "$49.99")]) }

/-- Elements matching exactly one probe each (the price in the text
names the probe: probe k carries 100 + k). -/
def elemClassPrice : Node :=
  .elem (toL "span") [(toL "class", toL "special-price")] (nodesOf [.text (toL "$101")])
def elemIdPrice : Node :=
  .elem (toL "span") [(toL "id", toL "price-main")] (nodesOf [.text (toL "$102")])
def elemItemprop : Node :=
  .elem (toL "span") [(toL "itemprop", toL "price")] (nodesOf [.text (toL "$103")])
def elemClassCost : Node :=
  .elem (toL "span") [(toL "class", toL "cost")] (nodesOf [.text (toL "$104")])
def elemClassAmount : Node :=
  .elem (toL "span") [(toL "class", toL "amount")] (nodesOf [.text (toL "$105")])
def elemDataPrice : Node :=
  .elem (toL "span") [(toL "data-price", toL "106")] (nodesOf [.text (toL "$106")])

/-- Documents for the probe-order demonstration: `probeDocK` holds the
elements of probes k..6 with later probes placed earlier in document
order, so that only probe priority (not document order) can decide. -/
def probeDoc (es : List Node) (raw : String) : Doc :=
  { raw := toL raw, dom := .elem (toL "body") [] (nodesOf es) }

def probeDoc1 : Doc := probeDoc
  [elemDataPrice, elemClassAmount, elemClassCost, elemItemprop, elemIdPrice, elemClassPrice]
  "<body><span data-price=\"106\">$106</span><span class=\"amount\">$105</span><span class=\"cost\">$104</span><span itemprop=\"price\">$103</span><span id=\"price-main\">$102</span><span class=\"special-price\">$101</span></body>"

def probeDoc2 : Doc := probeDoc
  [elemDataPrice, elemClassAmount, elemClassCost, elemItemprop, elemIdPrice]
  "<body><span data-price=\"106\">$106</span><span class=\"amount\">$105</span><span class=\"cost\">$104</span><span itemprop=\"price\">$103</span><span id=\"price-main\">$102</span></body>"

def probeDoc3 : Doc := probeDoc
  [elemDataPrice, elemClassAmount, elemClassCost, elemItemprop]
  "<body><span data-price=\"106\">$106</span><span class=\"amount\">$105</span><span class=\"cost\">$104</span><span itemprop=\"price\">$103</span></body>"

def probeDoc4 : Doc := probeDoc
  [elemDataPrice, elemClassAmount, elemClassCost]
  "<body><span data-price=\"106\">$106</span><span class=\"amount\">$105</span><span class=\"cost\">$104</span></body>"

def probeDoc5 : Doc := probeDoc
  [elemDataPrice, elemClassAmount]
  "<body><span data-price=\"106\">$106</span><span class=\"amount\">$105</span></body>"

def probeDoc6 : Doc := probeDoc
  [elemDataPrice]
  "<body><span data-price=\"106\">$106</span></body>"

/-- Fetch environment of P5: the static fetch succeeds at the transport
level but its (empty) page yields no price; the rendered page shows
`$49.99`. -/
def envStaticNoPrice : FetchEnv :=
  { http := { getResult := .ok docEmpty, statusExn := none },
    selenium := { importOk := true, chromeResult := .ok (), navResult := .ok (),
                  waitResult := .ok (), pageSource := docDollar },
    selectFn := noSelect }

/-- Browser environment in which the session launches and navigation
then raises (for instance a DNS failure inside `driver.get`). -/
def envNavFail : SeleniumEnv :=
  { importOk := true, chromeResult := .ok (),
    navResult := .error (toL "WebDriverException: net::ERR_NAME_NOT_RESOLVED"),
    waitResult := .ok (), pageSource := docEmpty }

/-- Shape hypothesis for scan lemmas: the list is empty or starts with a
character rejected by `p`. -/
def headFails (p : Char → Bool) : List Char → Prop
  | [] => True
  | c :: _ => p c = false

/-!
Theorems.
-/

theorem isSpaceChar_false_of_digit {c : Char} (h : isDigitChar c = true) :
    isSpaceChar c = false := by
  by_contra h2
  have h3 : isSpaceChar c = true := by simpa using h2
  simp only [isSpaceChar, Bool.or_eq_true, decide_eq_true_eq] at h3
  rcases h3 with ((((rfl | rfl) | rfl) | rfl) | rfl) | rfl <;> exact absurd h (by decide)

theorem isCurrencyChar_false_of_digit {c : Char} (h : isDigitChar c = true) :
    isCurrencyChar c = false := by
  by_contra h2
  have h3 : isCurrencyChar c = true := by simpa using h2
  simp only [isCurrencyChar, Bool.or_eq_true, decide_eq_true_eq] at h3
  rcases h3 with rfl | rfl <;> exact absurd h (by decide)

theorem dropWhile_eq_self_of_no {p : Char → Bool} {l : List Char}
    (h : ∀ c ∈ l, p c = false) : l.dropWhile p = l := by
  cases l with
  | nil => rfl
  | cons c rest =>
    have hc : p c = false := h c (List.mem_cons_self c rest)
    simp [List.dropWhile_cons, hc]

theorem stripEnds_eq_self {l : List Char} (h : ∀ c ∈ l, isSpaceChar c = false) :
    stripEnds l = l := by
  unfold stripEnds
  rw [dropWhile_eq_self_of_no h,
      dropWhile_eq_self_of_no (by intro c hc; exact h c (List.mem_reverse.mp hc)),
      List.reverse_reverse]

theorem takeWhile_append_of_all {p : Char → Bool} {l1 l2 : List Char}
    (h : ∀ c ∈ l1, p c = true) :
    (l1 ++ l2).takeWhile p = l1 ++ l2.takeWhile p := by
  induction l1 with
  | nil => simp
  | cons c rest ih =>
    have hc : p c = true := h c (List.mem_cons_self c rest)
    simp [List.takeWhile_cons, hc]
    exact ih (fun x hx => h x (List.mem_cons_of_mem c hx))

theorem dropWhile_append_of_all {p : Char → Bool} {l1 l2 : List Char}
    (h : ∀ c ∈ l1, p c = true) :
    (l1 ++ l2).dropWhile p = l2.dropWhile p := by
  induction l1 with
  | nil => simp
  | cons c rest ih =>
    have hc : p c = true := h c (List.mem_cons_self c rest)
    simp [List.dropWhile_cons, hc]
    exact ih (fun x hx => h x (List.mem_cons_of_mem c hx))

theorem takeWhile_eq_nil_of_headFails {p : Char → Bool} {l : List Char}
    (h : headFails p l) : l.takeWhile p = [] := by
  cases l with
  | nil => rfl
  | cons c rest =>
    have hc : p c = false := h
    simp [List.takeWhile_cons, hc]

theorem dropWhile_eq_self_of_headFails {p : Char → Bool} {l : List Char}
    (h : headFails p l) : l.dropWhile p = l := by
  cases l with
  | nil => rfl
  | cons c rest =>
    have hc : p c = false := h
    simp [List.dropWhile_cons, hc]

theorem digitsOf_append {D r : List Char} (hD : ∀ c ∈ D, isDigitChar c = true)
    (hr : headFails isDigitChar r) : digitsOf (D ++ r) = D := by
  unfold digitsOf
  rw [takeWhile_append_of_all hD, takeWhile_eq_nil_of_headFails hr, List.append_nil]

theorem afterDigits_append {D r : List Char} (hD : ∀ c ∈ D, isDigitChar c = true)
    (hr : headFails isDigitChar r) : afterDigits (D ++ r) = r := by
  unfold afterDigits
  rw [dropWhile_append_of_all hD, dropWhile_eq_self_of_headFails hr]

theorem mem_of_mem_dropWhile {p : Char → Bool} {l : List Char} {c : Char}
    (h : c ∈ l.dropWhile p) : c ∈ l := by
  induction l with
  | nil => simpa using h
  | cons x rest ih =>
    rw [List.dropWhile_cons] at h
    by_cases hx : p x = true
    · rw [if_pos hx] at h
      exact List.mem_cons_of_mem x (ih h)
    · rw [if_neg hx] at h
      exact h

theorem stripEnds_subset {l : List Char} {c : Char} (h : c ∈ stripEnds l) :
    c ∈ l := by
  unfold stripEnds at h
  rw [List.mem_reverse] at h
  have h2 := mem_of_mem_dropWhile h
  rw [List.mem_reverse] at h2
  exact mem_of_mem_dropWhile h2

theorem matchCents_snd_subset {l : List Char} {c : Char}
    (h : c ∈ (matchCents l).2) : c ∈ l := by
  rcases l with _ | ⟨x, _ | ⟨d1, _ | ⟨d2, rest⟩⟩⟩
  · simpa [matchCents] using h
  · simpa [matchCents] using h
  · simpa [matchCents] using h
  · have h2 : c ∈ (if (x = '.' && isDigitChar d1 && isDigitChar d2) = true
        then ([x, d1, d2], rest) else ([], x :: d1 :: d2 :: rest)).2 := h
    by_cases hcond : (x = '.' && isDigitChar d1 && isDigitChar d2) = true
    · rw [if_pos hcond] at h2
      exact List.mem_cons_of_mem x (List.mem_cons_of_mem d1 (List.mem_cons_of_mem d2 h2))
    · rw [if_neg hcond] at h2
      exact h2

theorem matchGroups_snd_subset {l : List Char} {c : Char}
    (h : c ∈ (matchGroups l).2) : c ∈ l := by
  induction l using matchGroups.induct with
  | case1 x d1 d2 d3 rest hcond g r hgr ih =>
    simp only [matchGroups, hcond, if_true, hgr] at h
    have hr : c ∈ (matchGroups rest).2 := by rw [hgr]; exact h
    exact List.mem_cons_of_mem x (List.mem_cons_of_mem d1 (List.mem_cons_of_mem d2
      (List.mem_cons_of_mem d3 (ih hr))))
  | case2 x d1 d2 d3 rest hcond =>
    simp only [matchGroups, if_neg hcond] at h
    exact h
  | case3 l hshape =>
    rcases l with _ | ⟨a, _ | ⟨b, _ | ⟨d, _ | ⟨e, rest⟩⟩⟩⟩
    · simpa [matchGroups] using h
    · simpa [matchGroups] using h
    · simpa [matchGroups] using h
    · simpa [matchGroups] using h
    · exact absurd rfl (hshape a b d e rest)

theorem headIsCurrency_false {l : List Char}
    (h : ∀ c ∈ l, isCurrencyChar c = false) : headIsCurrency l = false := by
  cases l with
  | nil => rfl
  | cons c rest => exact h c (List.mem_cons_self c rest)

theorem searchCurrencyFirst_none {l : List Char}
    (h : ∀ c ∈ l, isCurrencyChar c = false) : searchCurrencyFirst l = none := by
  induction l with
  | nil => rfl
  | cons c rest ih =>
    have hc : isCurrencyChar c = false := h c (List.mem_cons_self c rest)
    simp only [searchCurrencyFirst, hc, Bool.false_eq_true, if_false]
    exact ih (fun x hx => h x (List.mem_cons_of_mem c hx))

theorem searchCurrencySecond_none {l : List Char}
    (h : ∀ c ∈ l, isCurrencyChar c = false) : searchCurrencySecond l = none := by
  induction l with
  | nil => rfl
  | cons c rest ih =>
    have hrest : ∀ x ∈ rest, isCurrencyChar x = false :=
      fun x hx => h x (List.mem_cons_of_mem c hx)
    by_cases hc : isDigitChar c = true
    · have hsub2 : ∀ x ∈ (matchGroups (afterDigits (c :: rest))).2,
          isCurrencyChar x = false := by
        intro x hx
        exact h x (mem_of_mem_dropWhile (matchGroups_snd_subset hx))
      have hsub3 : ∀ x ∈ (matchCents (matchGroups (afterDigits (c :: rest))).2).2,
          isCurrencyChar x = false :=
        fun x hx => hsub2 x (matchCents_snd_subset hx)
      have hh2 : headIsCurrency
          ((matchGroups (afterDigits (c :: rest))).2.dropWhile isSpaceChar) = false :=
        headIsCurrency_false (fun x hx => hsub2 x (mem_of_mem_dropWhile hx))
      have hh3 : headIsCurrency
          ((matchCents (matchGroups (afterDigits (c :: rest))).2).2.dropWhile
            isSpaceChar) = false :=
        headIsCurrency_false (fun x hx => hsub3 x (mem_of_mem_dropWhile hx))
      simp only [searchCurrencySecond, hc, if_pos, hh2, hh3, Bool.and_false,
        Bool.false_eq_true, if_false]
      exact ih hrest
    · simp only [searchCurrencySecond, hc, Bool.false_eq_true, if_false]
      exact ih hrest

theorem currencyStage_none {l : List Char}
    (h : ∀ c ∈ l, isCurrencyChar c = false) : currencyStage l = none := by
  unfold currencyStage tryCurrencyPattern
  rw [searchCurrencyFirst_none h, searchCurrencySecond_none h]
  rfl

theorem foldl_digits_init (a : Nat) (l : List Char) :
    l.foldl (fun acc c => 10 * acc + (c.toNat - 48)) a =
      a * 10 ^ l.length + natOfDigits l := by
  induction l generalizing a with
  | nil => simp [natOfDigits]
  | cons c l ih =>
    have h1 : natOfDigits (c :: l) =
        (c.toNat - 48) * 10 ^ l.length + natOfDigits l := by
      have h0 : natOfDigits (c :: l) =
          l.foldl (fun acc c => 10 * acc + (c.toNat - 48)) (10 * 0 + (c.toNat - 48)) := rfl
      rw [h0, ih]
      norm_num
    rw [List.foldl_cons, ih, h1, List.length_cons]
    ring

theorem natOfDigits_append (xs ys : List Char) :
    natOfDigits (xs ++ ys) = natOfDigits xs * 10 ^ ys.length + natOfDigits ys := by
  unfold natOfDigits
  rw [List.foldl_append]
  exact foldl_digits_init _ ys

theorem isDigitChar_decDigit {n : Nat} (h : n < 10) :
    isDigitChar (decDigit n) = true := by
  interval_cases n <;> decide

theorem decDigit_val {n : Nat} (h : n < 10) : (decDigit n).toNat - 48 = n := by
  interval_cases n <;> decide

theorem natToDigitsGo_all_digits {fuel n : Nat} :
    ∀ c ∈ natToDigitsGo fuel n, isDigitChar c = true := by
  induction fuel generalizing n with
  | zero => simp [natToDigitsGo]
  | succ fuel ih =>
    intro c hc
    unfold natToDigitsGo at hc
    by_cases h10 : n < 10
    · rw [if_pos h10] at hc
      simp at hc
      subst hc
      exact isDigitChar_decDigit h10
    · rw [if_neg h10] at hc
      rcases List.mem_append.mp hc with h2 | h2
      · exact ih c h2
      · simp at h2
        subst h2
        exact isDigitChar_decDigit (Nat.mod_lt n (by omega))

theorem natToDigits_all_digits (n : Nat) :
    ∀ c ∈ natToDigits n, isDigitChar c = true := natToDigitsGo_all_digits

theorem natOfDigits_natToDigitsGo {fuel n : Nat} (h : n < 10 ^ fuel) :
    natOfDigits (natToDigitsGo fuel n) = n := by
  induction fuel generalizing n with
  | zero =>
    simp at h
    subst h
    simp [natToDigitsGo, natOfDigits]
  | succ fuel ih =>
    unfold natToDigitsGo
    by_cases h10 : n < 10
    · rw [if_pos h10]
      have := decDigit_val h10
      simp [natOfDigits]
      omega
    · rw [if_neg h10]
      rw [natOfDigits_append]
      have hdiv : n / 10 < 10 ^ fuel := by
        rw [Nat.div_lt_iff_lt_mul (by norm_num)]
        calc n < 10 ^ (fuel + 1) := h
          _ = 10 ^ fuel * 10 := by ring
      have hmod := decDigit_val (Nat.mod_lt n (show 0 < 10 by norm_num))
      rw [ih hdiv]
      simp [natOfDigits]
      omega

theorem natOfDigits_natToDigits (n : Nat) : natOfDigits (natToDigits n) = n :=
  natOfDigits_natToDigitsGo
    (lt_of_lt_of_le (Nat.lt_pow_self (by norm_num) n)
      (Nat.pow_le_pow_right (by norm_num) (Nat.le_succ n)))

theorem natToDigits_ne_nil (n : Nat) : natToDigits n ≠ [] := by
  unfold natToDigits natToDigitsGo
  by_cases h10 : n < 10
  · rw [if_pos h10]; simp
  · rw [if_neg h10]; simp

theorem pyFloat_digits {D : List Char} (hne : D ≠ [])
    (hd : ∀ c ∈ D, isDigitChar c = true) :
    pyFloat D = some (mkRat (natOfDigits D) 1) := by
  have hnw : ∀ c ∈ D, isSpaceChar c = false :=
    fun c hc => isSpaceChar_false_of_digit (hd c hc)
  have hdig : digitsOf D = D := by
    unfold digitsOf
    have := @takeWhile_append_of_all isDigitChar D [] hd
    simpa using this
  have haft : afterDigits D = [] := by
    unfold afterDigits
    have := @dropWhile_append_of_all isDigitChar D [] hd
    simpa using this
  unfold pyFloat
  rw [stripEnds_eq_self hnw]
  simp only [hdig, haft]
  simp [hne]

theorem pyFloat_digits_dot {D fs : List Char} (hne : D ≠ [])
    (hd : ∀ c ∈ D, isDigitChar c = true)
    (hf : ∀ c ∈ fs, isDigitChar c = true) :
    pyFloat (D ++ '.' :: fs) = some (mkRat (natOfDigits (D ++ fs)) (10 ^ fs.length)) := by
  have hnw : ∀ c ∈ D ++ '.' :: fs, isSpaceChar c = false := by
    intro c hc
    rcases List.mem_append.mp hc with h2 | h2
    · exact isSpaceChar_false_of_digit (hd c h2)
    · rcases List.mem_cons.mp h2 with rfl | h3
      · decide
      · exact isSpaceChar_false_of_digit (hf c h3)
  have hdot : headFails isDigitChar ('.' :: fs) := by
    show isDigitChar '.' = false
    decide
  have hdig : digitsOf (D ++ '.' :: fs) = D := digitsOf_append hd hdot
  have haft : afterDigits (D ++ '.' :: fs) = '.' :: fs := afterDigits_append hd hdot
  have hdig2 : digitsOf fs = fs := by
    unfold digitsOf
    have := @takeWhile_append_of_all isDigitChar fs [] hf
    simpa using this
  have haft2 : afterDigits fs = [] := by
    unfold afterDigits
    have := @dropWhile_append_of_all isDigitChar fs [] hf
    simpa using this
  unfold pyFloat
  rw [stripEnds_eq_self hnw]
  simp only [hdig, haft]
  simp [hdig2, haft2, hne]

theorem findallNumberGo_skip {pre tail : List Char} {fuel : Nat}
    (hpre : ∀ c ∈ pre, isDigitChar c = false) (hfuel : pre.length ≤ fuel) :
    findallNumberGo fuel (pre ++ tail) = findallNumberGo (fuel - pre.length) tail := by
  induction pre generalizing fuel with
  | nil => simp
  | cons c pre ih =>
    have hc : isDigitChar c = false := hpre c (List.mem_cons_self c pre)
    cases fuel with
    | zero => simp at hfuel
    | succ f =>
      have hstep : findallNumberGo (f + 1) ((c :: pre) ++ tail) =
          findallNumberGo f (pre ++ tail) := by
        simp [findallNumberGo, hc]
      rw [hstep, ih (fun x hx => hpre x (List.mem_cons_of_mem c hx))
        (by simp at hfuel; omega)]
      congr 1
      simp

theorem findallNumberGo_digit_run {D r : List Char} {fuel : Nat} (hne : D ≠ [])
    (hd : ∀ c ∈ D, isDigitChar c = true) (hr : headFails isDigitChar r)
    (hfuel : 1 ≤ fuel) :
    findallNumberGo fuel (D ++ r) =
      (D ++ (matchCents r).1) :: findallNumberGo (fuel - 1) (matchCents r).2 := by
  rcases D with _ | ⟨c, D2⟩
  · exact absurd rfl hne
  cases fuel with
  | zero => omega
  | succ f =>
    have hc : isDigitChar c = true := hd c (List.mem_cons_self c D2)
    have hD2 : ∀ x ∈ D2, isDigitChar x = true :=
      fun x hx => hd x (List.mem_cons_of_mem c hx)
    have hdig : digitsOf (c :: D2 ++ r) = c :: D2 := digitsOf_append hd hr
    have haft : afterDigits (c :: D2 ++ r) = r := afterDigits_append hd hr
    have : (c :: D2) ++ r = c :: (D2 ++ r) := rfl
    rw [this]
    simp only [findallNumberGo, hc, if_true]
    rw [show c :: (D2 ++ r) = (c :: D2) ++ r from rfl, hdig, haft]
    simp

theorem matchCents_not_two_digits {d : Char} {rest : List Char}
    (hrest : headFails isDigitChar rest) :
    matchCents ('.' :: d :: rest) = ([], '.' :: d :: rest) := by
  cases rest with
  | nil => rfl
  | cons r0 rs =>
    have h0 : isDigitChar r0 = false := hrest
    simp [matchCents, h0]

theorem matchCents_two_digits {d1 d2 : Char} {rest : List Char}
    (h1 : isDigitChar d1 = true) (h2 : isDigitChar d2 = true) :
    matchCents ('.' :: d1 :: d2 :: rest) = (['.', d1, d2], rest) := by
  simp [matchCents, h1, h2]

theorem parse_price_first_number {T pre D r : List Char}
    (hsplit : stripEnds T = pre ++ (D ++ r))
    (hcur : ∀ c ∈ T, isCurrencyChar c = false)
    (hpre : ∀ c ∈ pre, isDigitChar c = false)
    (hDne : D ≠ []) (hD : ∀ c ∈ D, isDigitChar c = true)
    (hr : headFails isDigitChar r)
    {q : ℚ} (hq : pyFloat (D ++ (matchCents r).1) = some q) (h10 : 10 ≤ q) :
    parse_price T = some q := by
  have hcur2 : ∀ c ∈ stripEnds T, isCurrencyChar c = false :=
    fun c hc => hcur c (stripEnds_subset hc)
  have hcs : currencyStage (stripEnds T) = none := currencyStage_none hcur2
  have hfall : fallbackStage (stripEnds T) = some q := by
    unfold fallbackStage findallNumber
    rw [hsplit, findallNumberGo_skip hpre (by simp)]
    have hlen : (pre ++ (D ++ r)).length - pre.length = (D ++ r).length := by simp
    rw [hlen, findallNumberGo_digit_run hDne hD hr
      (by have h1 : 0 < D.length := List.length_pos.mpr hDne; simp; omega)]
    simp only [firstBigNumber, hq]
    rw [if_pos h10]
  have hmain : (currencyStage (stripEnds T)).orElse
      (fun _ => fallbackStage (stripEnds T)) = some q := by
    rw [hcs]
    simpa [Option.orElse] using hfall
  exact hmain

/-- C10: on currency-free text whose first numeric run is `d+.d` — a
digit run worth at least 10, a dot, one digit, then a non-digit — the
fallback pattern takes the digits before the dot alone, so `parse_price`
returns just the integer part. -/
theorem claim10_fallback_drops_decimal (s pre D : List Char) (d : Char)
    (rest : List Char)
    (hsplit : stripEnds s = pre ++ (D ++ '.' :: d :: rest))
    (hcur : ∀ c ∈ s, isCurrencyChar c = false)
    (hpre : ∀ c ∈ pre, isDigitChar c = false)
    (hDne : D ≠ []) (hD : ∀ c ∈ D, isDigitChar c = true)
    (hd : isDigitChar d = true)
    (hrest : headFails isDigitChar rest)
    (hval : 10 ≤ natOfDigits D) :
    parse_price s = some ((natOfDigits D : ℚ)) := by
  have hr : headFails isDigitChar ('.' :: d :: rest) := by
    show isDigitChar '.' = false
    decide
  have hcast : (mkRat (natOfDigits D) 1 : ℚ) = ((natOfDigits D : Nat) : ℚ) := by
    rw [Rat.mkRat_one]
    simp
  have hq : pyFloat (D ++ (matchCents ('.' :: d :: rest)).1) =
      some ((natOfDigits D : Nat) : ℚ) := by
    rw [matchCents_not_two_digits hrest]
    simpa [hcast] using pyFloat_digits hDne hD
  exact parse_price_first_number hsplit hcur hpre hDne hD hr hq
    (by exact_mod_cast hval)

theorem rat_eq_natCast_of_den_one {p : ℚ} (hden : p.den = 1) (hpos : 0 < p) :
    p = ((p.num.toNat : Nat) : ℚ) := by
  have h1 : (p.num : ℚ) = p := (Rat.den_eq_one_iff p).mp hden
  have h2 : (0 : ℤ) ≤ p.num := (Rat.num_pos.mpr hpos).le
  rw [← h1]
  norm_cast
  exact (Int.toNat_of_nonneg h2).symm

theorem mkRat_cents {p : ℚ} (hpos : 0 < p) (hdvd : p.den ∣ 100) :
    mkRat ((p.num.toNat * (100 / p.den) : Nat)) 100 = p := by
  have hk : p.den * (100 / p.den) = 100 := Nat.mul_div_cancel' hdvd
  have hk0 : 100 / p.den ≠ 0 := by
    intro h0
    rw [h0, Nat.mul_zero] at hk
    exact absurd hk (by norm_num)
  have hnum : ((p.num.toNat * (100 / p.den) : Nat) : ℤ) =
      p.num * ((100 / p.den : Nat) : ℤ) := by
    push_cast [Int.toNat_of_nonneg (Rat.num_pos.mpr hpos).le]
    ring
  calc mkRat ((p.num.toNat * (100 / p.den) : Nat)) 100
      = mkRat (p.num * ((100 / p.den : Nat) : ℤ)) (p.den * (100 / p.den)) := by
        rw [hnum, hk]
    _ = mkRat p.num p.den := Rat.mkRat_mul_right hk0
    _ = p := Rat.mkRat_self p

/-- C3 amended: re-parsing the canonical decimal string is the identity
on accepted prices that are at least the fallback threshold 10, inside
the sanity window, and whose canonical form has zero fractional digits
or exactly two with a nonzero final digit (denominator 1, or dividing
100 but not 10).  Below 10, or with a single fractional digit, the
round trip fails (see the counterexample). -/
theorem claim3_reparse_amended (x : List Char) (p : ℚ)
    (hacc : parse_price x = some p) (h10 : 10 ≤ p) (hmax : p < 1000000)
    (hshape : p.den = 1 ∨ (p.den ∣ 100 ∧ ¬ p.den ∣ 10)) :
    parse_price (pyStr p) = some p := by
  have hpos : 0 < p := lt_of_lt_of_le (by norm_num) h10
  rcases hshape with hden | ⟨hdvd, hnot10⟩
  · -- whole number: the canonical string is "<digits>.0"
    have hp : p = ((p.num.toNat : Nat) : ℚ) := rat_eq_natCast_of_den_one hden hpos
    have hstr : pyStr p = natToDigits p.num.toNat ++ '.' :: '0' :: [] := by
      unfold pyStr
      rw [if_pos hden]
      rfl
    have hDne : natToDigits p.num.toNat ≠ [] := natToDigits_ne_nil _
    have hD : ∀ c ∈ natToDigits p.num.toNat, isDigitChar c = true :=
      natToDigits_all_digits _
    have hmem : ∀ c ∈ natToDigits p.num.toNat ++ '.' :: '0' :: [],
        isSpaceChar c = false ∧ isCurrencyChar c = false := by
      intro c hc
      rcases List.mem_append.mp hc with h2 | h2
      · exact ⟨isSpaceChar_false_of_digit (hD c h2),
          isCurrencyChar_false_of_digit (hD c h2)⟩
      · simp at h2
        rcases h2 with rfl | rfl <;> exact ⟨by decide, by decide⟩
    have hsplitT : stripEnds (pyStr p) =
        [] ++ (natToDigits p.num.toNat ++ '.' :: '0' :: []) := by
      rw [hstr, stripEnds_eq_self (fun c hc => (hmem c hc).1)]
      simp
    have hcur : ∀ c ∈ pyStr p, isCurrencyChar c = false := by
      rw [hstr]
      exact fun c hc => (hmem c hc).2
    have hr : headFails isDigitChar ('.' :: '0' :: []) := by
      show isDigitChar '.' = false
      decide
    have hq : pyFloat (natToDigits p.num.toNat ++
        (matchCents ('.' :: '0' :: [])).1) = some p := by
      rw [show matchCents ('.' :: '0' :: []) = ([], '.' :: '0' :: []) from rfl]
      rw [List.append_nil, pyFloat_digits hDne hD, natOfDigits_natToDigits]
      congr 1
      rw [Rat.mkRat_one, Int.toNat_of_nonneg (Rat.num_pos.mpr hpos).le]
      exact (Rat.den_eq_one_iff p).mp hden
    exact parse_price_first_number hsplitT hcur (by simp) hDne hD hr hq h10
  · -- exactly two fractional digits, last nonzero
    have hden1 : p.den ≠ 1 := by
      intro h1
      exact hnot10 (h1 ▸ Nat.one_dvd 10)
    have hstr : pyStr p = natToDigits (p.num.toNat * (100 / p.den) / 100) ++
        '.' :: decDigit (p.num.toNat * (100 / p.den) / 10 % 10) ::
          decDigit (p.num.toNat * (100 / p.den) % 10) :: [] := by
      simp only [pyStr, if_neg hden1, if_neg hnot10]
    set N := p.num.toNat * (100 / p.den) with hN
    set c1 := decDigit (N / 10 % 10) with hc1def
    set c2 := decDigit (N % 10) with hc2def
    have hc1 : isDigitChar c1 = true :=
      isDigitChar_decDigit (Nat.mod_lt _ (by norm_num))
    have hc2 : isDigitChar c2 = true :=
      isDigitChar_decDigit (Nat.mod_lt _ (by norm_num))
    have hDne : natToDigits (N / 100) ≠ [] := natToDigits_ne_nil _
    have hD : ∀ c ∈ natToDigits (N / 100), isDigitChar c = true :=
      natToDigits_all_digits _
    have hmem : ∀ c ∈ natToDigits (N / 100) ++ '.' :: c1 :: c2 :: [],
        isSpaceChar c = false ∧ isCurrencyChar c = false := by
      intro c hc
      rcases List.mem_append.mp hc with h2 | h2
      · exact ⟨isSpaceChar_false_of_digit (hD c h2),
          isCurrencyChar_false_of_digit (hD c h2)⟩
      · simp at h2
        rcases h2 with rfl | rfl | rfl
        · exact ⟨by decide, by decide⟩
        · exact ⟨isSpaceChar_false_of_digit hc1, isCurrencyChar_false_of_digit hc1⟩
        · exact ⟨isSpaceChar_false_of_digit hc2, isCurrencyChar_false_of_digit hc2⟩
    have hsplitT : stripEnds (pyStr p) =
        [] ++ (natToDigits (N / 100) ++ '.' :: c1 :: c2 :: []) := by
      rw [hstr, stripEnds_eq_self (fun c hc => (hmem c hc).1)]
      simp
    have hcur : ∀ c ∈ pyStr p, isCurrencyChar c = false := by
      rw [hstr]
      exact fun c hc => (hmem c hc).2
    have hr : headFails isDigitChar ('.' :: c1 :: c2 :: []) := by
      show isDigitChar '.' = false
      decide
    have hval2 : natOfDigits (natToDigits (N / 100) ++ [c1, c2]) = N := by
      rw [natOfDigits_append, natOfDigits_natToDigits]
      have hv1 := decDigit_val (show N / 10 % 10 < 10 from Nat.mod_lt _ (by norm_num))
      have hv2 := decDigit_val (show N % 10 < 10 from Nat.mod_lt _ (by norm_num))
      simp only [natOfDigits, List.foldl_cons, List.foldl_nil, List.length_cons,
        List.length_nil, ← hc1def, ← hc2def] at *
      rw [hv1, hv2]
      omega
    have hq : pyFloat (natToDigits (N / 100) ++
        (matchCents ('.' :: c1 :: c2 :: [])).1) = some p := by
      rw [matchCents_two_digits hc1 hc2]
      have hdot : natToDigits (N / 100) ++ ['.', c1, c2] =
          natToDigits (N / 100) ++ '.' :: [c1, c2] := rfl
      rw [hdot, pyFloat_digits_dot hDne hD
        (by intro c hc; simp at hc; rcases hc with rfl | rfl; exacts [hc1, hc2])]
      rw [hval2]
      congr 1
      have h100 : (10 : Nat) ^ ([c1, c2] : List Char).length = 100 := by norm_num
      rw [h100, hN]
      exact mkRat_cents hpos hdvd
    exact parse_price_first_number hsplitT hcur (by simp) hDne hD hr hq h10

/-- C3 amended witness: 49.99 (denominator 100) round-trips. -/
theorem claim3_reparse_amended_witness :
    parse_price (pyStr (mkRat 4999 100)) = some (mkRat 4999 100) :=
  claim3_reparse_amended (toL "$49.99") (mkRat 4999 100) (by decide) (by decide)
    (by decide) (Or.inr ⟨by decide, by decide⟩)

/-- C10 witness: `parse_price "49.9"` is 49. -/
theorem claim10_fallback_drops_decimal_witness : parse_price (toL "49.9") = some 49 := by
  have h := claim10_fallback_drops_decimal (toL "49.9") [] ['4', '9'] '9' []
    (by decide) (by decide) (by decide) (by decide) (by decide) (by decide)
    (by exact trivial) (by decide)
  have hc : ((natOfDigits ['4', '9'] : Nat) : ℚ) = 49 := by decide
  rwa [hc] at h

theorem fetch_price_simple_isOk (env : HttpEnv) (sf : Node → List Char → List Node)
    (sel : Option (List Char)) : ∃ v, fetch_price_simple env sf sel = .ok v := by
  unfold fetch_price_simple pyCatchAll
  cases h : simpleBody env sf sel with
  | ok v => exact ⟨v, rfl⟩
  | exn e => exact ⟨none, rfl⟩

theorem fetch_price_selenium_isOk (env : SeleniumEnv) (sf : Node → List Char → List Node)
    (sel : Option (List Char)) : ∃ v, (fetch_price_selenium env sf sel).1 = .ok v := by
  unfold fetch_price_selenium
  rcases h : seleniumBody env sf sel with ⟨r, q⟩
  cases r <;> simp [h, pyCatchAll]

/-- C1: at an input where the browser session launches and navigation
then raises, the code returns `None` with `driver.quit()` never
executed — the session leaks, contradicting the disposal-on-every-path
requirement. -/
theorem claim1_leak_on_exception :
    sessionLaunched envNavFail = true ∧
    (fetch_price_selenium envNavFail noSelect none).2 = false ∧
    (fetch_price_selenium envNavFail noSelect none).1 = .ok none :=
  ⟨by decide, by decide, by decide⟩

/-- C2: `fetch_price` never surfaces an exception: whatever the
environment does (transport errors, non-2xx statuses, browser errors,
missing browser library) and whatever the arguments are, the call
returns `.ok` — a price or `None`. -/
theorem claim2_fetch_never_raises (env : FetchEnv) (sel : Option (List Char))
    (force_selenium : Bool) : ∃ v, fetch_price env sel force_selenium = .ok v := by
  unfold fetch_price
  cases force_selenium with
  | true => simpa using fetch_price_selenium_isOk env.selenium env.selectFn sel
  | false =>
    obtain ⟨v, hv⟩ := fetch_price_simple_isOk env.http env.selectFn sel
    rw [if_neg (by simp), hv]
    simp only [pyBind]
    by_cases ht : truthyPrice v = true
    · exact ⟨v, by rw [if_pos ht]⟩
    · rw [if_neg ht]
      obtain ⟨w, hw⟩ := fetch_price_selenium_isOk env.selenium env.selectFn sel
      rw [hw]
      simp only [pyBind]
      by_cases hw2 : truthyPrice w = true
      · exact ⟨w, by rw [if_pos hw2]⟩
      · exact ⟨none, by rw [if_neg hw2]⟩

/-- C3 counterexample: `$5` parses to 5.0, Python prints 5.0 as "5.0",
and re-parsing "5.0" yields NoMatch (no currency anchor, and the
fallback drops the lone fractional digit leaving 5 and 0, both below
the minimum-price threshold) — so idempotence fails below 10. -/
theorem claim3_reparse_fails_below_ten :
    parse_price (toL "$5") = some 5 ∧
    pyStr 5 = toL "5.0" ∧
    parse_price (pyStr 5) = none :=
  ⟨by decide, by decide, by decide⟩

/-- C4 counterexample: the document whose only price-bearing element is
`id="total-cost"` with text `1299` (parseable on its own) yields
NoMatch — the cost probe looks at `class` only, never at `id`. -/
theorem claim4_id_cost_not_probed :
    parse_price (getText docIdCost.dom) = some 1299 ∧
    extract_price noSelect docIdCost none = none :=
  ⟨by decide, by decide⟩

/-- C4 amended: the probe cascade is class~price, id~price,
itemprop=price, class~cost (class only), class~amount, data-price
present, class~product-price, and probe order dominates document order:
in each `probeDocK` the probe-k element sits last in document order yet
its price 100+k is returned; the id-cost document yields NoMatch. -/
theorem claim4_probe_order :
    extract_price noSelect probeDoc1 none = some 101 ∧
    extract_price noSelect probeDoc2 none = some 102 ∧
    extract_price noSelect probeDoc3 none = some 103 ∧
    extract_price noSelect probeDoc4 none = some 104 ∧
    extract_price noSelect probeDoc5 none = some 105 ∧
    extract_price noSelect probeDoc6 none = some 106 ∧
    extract_price noSelect docIdCost none = none :=
  ⟨by decide, by decide, by decide, by decide, by decide, by decide, by decide⟩

/-- C6: with the selector stage yielding nothing, the document holding a
loose `class="amount"` fragment (R50) before an `itemprop="price"`
fragment (R1,299.00) extracts 1299 — the itemprop probe runs first. -/
theorem claim6_itemprop_beats_amount (sf : Node → List Char → List Node)
    (sel : Option (List Char))
    (h : selectorStage sf docItempropAmount.dom sel = none) :
    extract_price sf docItempropAmount sel = some 1299 := by
  unfold extract_price
  rw [h]
  decide

/-- C6 witness: the theorem applied to a selector the engine cannot
match. -/
theorem claim6_itemprop_beats_amount_witness :
    extract_price noSelect docItempropAmount (some (toL "#buy-box")) = some 1299 :=
  claim6_itemprop_beats_amount noSelect (some (toL "#buy-box")) (by decide)

/-- C7: in the fallback flow (no forcing), a static fetch that succeeds
at transport level but extracts nothing hands over to the browser
fetch, and rendered markup containing `$49.99` produces 49.99. -/
theorem claim7_static_to_browser :
    fetch_price_simple envStaticNoPrice.http noSelect none = .ok none ∧
    fetch_price envStaticNoPrice none false = .ok (some (mkRat 4999 100)) :=
  ⟨by decide, by decide⟩

/-- C8: a space-grouped amount with a comma-cents suffix after the
currency symbol parses to 1299. -/
theorem claim8_space_grouped : parse_price (toL "R 1 299,00") = some 1299 := by
  decide

theorem mkRat_hundredth : mkRat 1 100 = (1 : ℚ)/100 := by
  rw [Rat.mkRat_eq_divInt, Rat.divInt_eq_div]
  norm_num

theorem tryCurrencyPattern_window {f : List Char → Option (List Char)}
    {t : List Char} {p : ℚ} (h : tryCurrencyPattern f t = some p) :
    inSanityWindow p = true := by
  unfold tryCurrencyPattern at h
  split at h
  · exact absurd h (by simp)
  · split at h
    · exact absurd h (by simp)
    · split at h
      · rename_i price hin
        injection h with h
        subst h
        exact hin
      · exact absurd h (by simp)

theorem currencyStage_window {t : List Char} {p : ℚ}
    (h : currencyStage t = some p) : mkRat 1 100 < p ∧ p < 1000000 := by
  unfold currencyStage at h
  have key : inSanityWindow p = true := by
    rcases h1 : tryCurrencyPattern searchCurrencyFirst t with _ | q <;>
      rw [h1] at h <;> simp [Option.orElse] at h
    · exact tryCurrencyPattern_window h
    · subst h; exact tryCurrencyPattern_window h1
  simpa [inSanityWindow] using key

theorem firstBigNumber_min {L : List (List Char)} {p : ℚ}
    (h : firstBigNumber L = some p) : 10 ≤ p := by
  induction L with
  | nil => simp [firstBigNumber] at h
  | cons n ns ih =>
    unfold firstBigNumber at h
    split at h
    · exact ih h
    · split at h
      · rename_i q hq h10
        injection h with h
        subst h
        exact h10
      · exact ih h

theorem parse_price_stage_cases {t : List Char} {p : ℚ}
    (h : parse_price t = some p) :
    currencyStage (stripEnds t) = some p ∨ fallbackStage (stripEnds t) = some p := by
  have h' : (currencyStage (stripEnds t)).orElse
      (fun _ => fallbackStage (stripEnds t)) = some p := h
  rcases h1 : currencyStage (stripEnds t) with _ | q <;>
    rw [h1] at h' <;> simp [Option.orElse] at h'
  · exact Or.inr h'
  · exact Or.inl (congrArg some h')

theorem parse_price_pos {t : List Char} {p : ℚ}
    (h : parse_price t = some p) : 0 < p := by
  rcases parse_price_stage_cases h with hc | hf
  · have hw := (currencyStage_window hc).1
    have h0 : (0 : ℚ) < mkRat 1 100 := by decide
    linarith
  · have := firstBigNumber_min hf
    linarith

theorem firstPriceOfElems_from_parse {es : List Node} {p : ℚ}
    (h : firstPriceOfElems es = some p) : ∃ t, parse_price t = some p := by
  induction es with
  | nil => simp [firstPriceOfElems] at h
  | cons e es ih =>
    unfold firstPriceOfElems at h
    cases ht : truthyPrice (parse_price (getText e)) <;> simp [ht] at h
    · exact ih h
    · exact ⟨getText e, h⟩

theorem firstPriceOfMatches_from_parse {ms : List (List Char)} {p : ℚ}
    (h : firstPriceOfMatches ms = some p) : ∃ t, parse_price t = some p := by
  induction ms with
  | nil => simp [firstPriceOfMatches] at h
  | cons m ms ih =>
    unfold firstPriceOfMatches at h
    cases ht : truthyPrice (parse_price m) <;> simp [ht] at h
    · exact ih h
    · exact ⟨m, h⟩

theorem probeLoop_from_parse {dom : Node} {pats : List (List Char × AttrMatcher)}
    {p : ℚ} (h : probeLoop dom pats = some p) : ∃ t, parse_price t = some p := by
  induction pats with
  | nil => simp [probeLoop] at h
  | cons pat pats ih =>
    unfold probeLoop at h
    cases ht : truthyPrice (firstPriceOfElems ((allElems dom).filter (nodeMatches pat))) <;>
      simp [ht] at h
    · exact ih h
    · exact firstPriceOfElems_from_parse h

theorem selectorStage_from_parse {sf : Node → List Char → List Node} {dom : Node}
    {sel : Option (List Char)} {p : ℚ} (h : selectorStage sf dom sel = some p) :
    ∃ t, parse_price t = some p := by
  cases sel with
  | none => simp [selectorStage] at h
  | some s =>
    simp only [selectorStage] at h
    by_cases hs : s = []
    · rw [if_pos hs] at h
      exact absurd h (by simp)
    · rw [if_neg hs] at h
      exact firstPriceOfElems_from_parse h

theorem extract_price_from_parse {sf : Node → List Char → List Node} {d : Doc}
    {sel : Option (List Char)} {p : ℚ} (h : extract_price sf d sel = some p) :
    ∃ t, parse_price t = some p := by
  unfold extract_price at h
  rcases h1 : selectorStage sf d.dom sel with _ | q <;>
    rw [h1] at h <;> simp [Option.orElse] at h
  · rcases h2 : probeLoop d.dom price_patterns with _ | q <;>
      rw [h2] at h <;> simp [Option.orElse] at h
    · exact firstPriceOfMatches_from_parse h
    · subst h; exact probeLoop_from_parse h2
  · subst h; exact selectorStage_from_parse h1

theorem extract_price_pos {sf : Node → List Char → List Node} {d : Doc}
    {sel : Option (List Char)} {p : ℚ} (h : extract_price sf d sel = some p) :
    0 < p := by
  obtain ⟨t, ht⟩ := extract_price_from_parse h
  exact parse_price_pos ht

theorem seleniumFetch_ok_value {env : SeleniumEnv} {sf : Node → List Char → List Node}
    {sel : Option (List Char)} {v : Option ℚ}
    (h : (fetch_price_selenium env sf sel).1 = .ok v) :
    v = none ∨ v = extract_price sf env.pageSource sel := by
  obtain ⟨io, cr, nr, wr, ps⟩ := env
  cases io <;> rcases cr with e | u <;> rcases nr with e2 | u2 <;> rcases wr with e3 | u3 <;>
    simp [fetch_price_selenium, seleniumBody, pyCatchAll] at h <;>
    first
      | exact Or.inl h.symm
      | exact Or.inl h
      | exact Or.inr h.symm

theorem simpleFetch_ok_value {env : HttpEnv} {sf : Node → List Char → List Node}
    {sel : Option (List Char)} {v : Option ℚ}
    (h : fetch_price_simple env sf sel = .ok v) :
    v = none ∨ ∃ d, v = extract_price sf d sel := by
  obtain ⟨gr, se⟩ := env
  rcases gr with e | doc <;> rcases se with _ | e2 <;>
    simp [fetch_price_simple, simpleBody, pyCatchAll] at h <;>
    first
      | exact Or.inl h.symm
      | exact Or.inl h
      | exact Or.inr ⟨doc, h.symm⟩

theorem fetch_price_pos {env : FetchEnv} {sel : Option (List Char)}
    {force : Bool} {p : ℚ} (h : fetch_price env sel force = .ok (some p)) :
    0 < p := by
  unfold fetch_price at h
  cases force with
  | true =>
    rw [if_pos rfl] at h
    rcases seleniumFetch_ok_value h with h2 | h2
    · exact absurd h2 (by simp)
    · exact extract_price_pos h2.symm
  | false =>
    rw [if_neg (by simp)] at h
    obtain ⟨v, hv⟩ := fetch_price_simple_isOk env.http env.selectFn sel
    rw [hv] at h
    simp only [pyBind] at h
    cases htv : truthyPrice v <;> rw [htv] at h <;> simp at h
    · obtain ⟨w, hw⟩ := fetch_price_selenium_isOk env.selenium env.selectFn sel
      rw [hw] at h
      simp only [pyBind] at h
      cases htw : truthyPrice w <;> rw [htw] at h <;> simp at h
      · rcases seleniumFetch_ok_value hw with h2 | h2
        · rw [h2] at h
          exact absurd h (by simp)
        · rw [h] at h2
          exact extract_price_pos h2.symm
    · subst h
      rcases simpleFetch_ok_value hv with h2 | h2
      · exact absurd h2 (by simp)
      · obtain ⟨d, hd⟩ := h2
        exact extract_price_pos hd.symm

/-- C5: a currency-anchored acceptance lies strictly inside the sanity
window, a fallback acceptance is at least the minimum-price threshold,
and consequently every price `parse_price`, `extract_price` or
`fetch_price` produces is strictly positive. -/
theorem claim5_bounds :
    (∀ t p, currencyStage t = some p → (1 : ℚ)/100 < p ∧ p < 1000000) ∧
    (∀ t p, fallbackStage t = some p → 10 ≤ p) ∧
    (∀ t p, parse_price t = some p → 0 < p) ∧
    (∀ sf d sel p, extract_price sf d sel = some p → 0 < p) ∧
    (∀ env sel force p, fetch_price env sel force = .ok (some p) → 0 < p) := by
  refine ⟨?_, ?_, ?_, ?_, ?_⟩
  · intro t p h
    have := currencyStage_window h
    rwa [mkRat_hundredth] at this
  · intro t p h
    exact firstBigNumber_min h
  · intro t p h
    exact parse_price_pos h
  · intro sf d sel p h
    exact extract_price_pos h
  · intro env sel force p h
    exact fetch_price_pos h

/-- C5 witness: the five parts instantiated at concrete accepting
inputs. -/
theorem claim5_bounds_witness :
    ((1 : ℚ)/100 < 495 ∧ (495 : ℚ) < 1000000) ∧ 10 ≤ (2024 : ℚ) ∧
    0 < (1299 : ℚ) ∧ 0 < (1299 : ℚ) ∧ 0 < mkRat 4999 100 :=
  ⟨claim5_bounds.1 (toL "$495") 495 (by decide),
   claim5_bounds.2.1 (toL "year 2024") 2024 (by decide),
   claim5_bounds.2.2.1 (toL "R 1 299,00") 1299 (by decide),
   claim5_bounds.2.2.2.1 noSelect docItempropAmount none 1299 (by decide),
   claim5_bounds.2.2.2.2 envStaticNoPrice none false (mkRat 4999 100) (by decide)⟩

/-- C9: on `$5000000` the anchored pattern matches `5000000`, the match
is rejected by the sanity window, and the unanchored fallback then
re-accepts the same digits — the window is no upper bound on
`parse_price`. -/
theorem claim9_window_not_upper_bound :
    searchCurrencyFirst (stripEnds (toL "$5000000")) = some (toL "5000000") ∧
    currencyStage (stripEnds (toL "$5000000")) = none ∧
    parse_price (toL "$5000000") = some 5000000 :=
  ⟨by decide, by decide, by decide⟩

end PriceTracker
